import Mathlib

/-
Verification of the schema-directives extension: a resolver-wrapping
interceptor that runs optional start/end hooks of directive objects
around the underlying field resolver.

Modelling conventions:
- Python exceptions become `Except E`; mutable side effects become
  explicit state passing over a state type `σ`, so a hook takes the
  current state and returns `Except E result × σ` (state mutations
  persist even when an exception is raised, as in Python).
- `hasattr(d, "on_resolve_start")` / `"on_resolve_end"` become `Option`
  fields on the directive record.
- The bundle `(root, *args, **kwargs)` that is forwarded verbatim to
  every hook and to the resolver is modelled by one opaque type `Args`.
- `schema.get_field_for_type` returning `None` becomes `Option`.
-/

namespace SchemaDirectives

/-- A schema directive instance: an opaque user object exposing two
optional lifecycle hooks. `on_resolve_start` gets the forwarded
arguments; its return value of type `A` is produced but never consumed
by the interceptor. `on_resolve_end` gets the current value and the
forwarded arguments and yields the next value. -/
structure Directive (Args σ V E A : Type) where
  on_resolve_start : Option (Args → σ → Except E A × σ)
  on_resolve_end : Option (V → Args → σ → Except E V × σ)

/-- The `_type_definition` attribute of a directive-capable composite
type: it carries the type's declared directives, in declaration order. -/
structure TypeDefinition (D : Type) where
  directives : List D

/-- A field's return type: it either has a `_type_definition` attribute
(composite type) or not (e.g. a scalar). -/
structure FieldType (D : Type) where
  type_definition : Option (TypeDefinition D)

/-- `StrawberryField`: field metadata exposing the field's declared
directives, in declaration order, and its return type. -/
structure StrawberryField (D : Type) where
  directives : List D
  type : FieldType D

/-- The compiled schema registry: `get_field_for_type field_name
type_name` returns the registered field metadata or `none`. -/
structure Schema (D : Type) where
  get_field_for_type : String → String → Option (StrawberryField D)

/-- `GraphQLResolveInfo`, restricted to what the extension reads: the
schema back-reference, the field name and the parent type's name. -/
structure ResolveInfo (D : Type) where
  schema : Schema D
  field_name : String
  parent_type_name : String

variable {Args σ V E A D : Type}

/-- Translation of `get_type_directives_from_field`: if the field's
return type has no `_type_definition` attribute, return the empty
tuple; otherwise return that type definition's directives. -/
def get_type_directives_from_field (field : StrawberryField D) : List D :=
  match field.type.type_definition with
  | none => []
  | some td => td.directives

/-- Translation of `get_directives_for_resolver_info`: look the field up
by `(field_name, parent_type.name)`; on a miss return the empty tuple;
on a hit return the field's directives concatenated with the return
type's directives. -/
def get_directives_for_resolver_info (info : ResolveInfo D) : List D :=
  match info.schema.get_field_for_type info.field_name info.parent_type_name with
  | none => []
  | some field => field.directives ++ get_type_directives_from_field field

/-- The first loop of `SchemaDirectivesExtensionSync.resolve`: for each
directive in order, if it has an `on_resolve_start` hook, call it
(discarding its return value); a raised exception aborts the loop and
propagates. -/
def runStartHooks : List (Directive Args σ V E A) → Args → σ → Except E Unit × σ
  | [], _, s => (Except.ok (), s)
  | d :: rest, a, s =>
    match d.on_resolve_start with
    | none => runStartHooks rest a s
    | some h =>
      match h a s with
      | (Except.error e, s₁) => (Except.error e, s₁)
      | (Except.ok _, s₁) => runStartHooks rest a s₁

/-- The second loop of `SchemaDirectivesExtensionSync.resolve`: for each
directive in order, if it has an `on_resolve_end` hook, reassign
`value = hook(value, ...)`; a raised exception aborts the loop and
propagates. -/
def runEndHooks : List (Directive Args σ V E A) → V → Args → σ → Except E V × σ
  | [], v, _, s => (Except.ok v, s)
  | d :: rest, v, a, s =>
    match d.on_resolve_end with
    | none => runEndHooks rest v a s
    | some h =>
      match h v a s with
      | (Except.error e, s₁) => (Except.error e, s₁)
      | (Except.ok v₁, s₁) => runEndHooks rest v₁ a s₁

/-- Translation of `SchemaDirectivesExtensionSync.resolve`: locate the
directives, run all start hooks, call the underlying resolver, then
thread the value through all end hooks; any exception propagates. -/
def resolve (info : ResolveInfo (Directive Args σ V E A))
    (next : Args → σ → Except E V × σ) (a : Args) (s : σ) : Except E V × σ :=
  let schema_directives := get_directives_for_resolver_info info
  match runStartHooks schema_directives a s with
  | (Except.error e, s₁) => (Except.error e, s₁)
  | (Except.ok _, s₁) =>
    match next a s₁ with
    | (Except.error e, s₂) => (Except.error e, s₂)
    | (Except.ok v, s₂) => runEndHooks schema_directives v a s₂

/-- Test harness: a field whose return type is a directive-capable
composite type carrying `typeDirs`, with `fieldDirs` on the field
itself (mirrors the schemas built in the test file). -/
def mkField (fieldDirs typeDirs : List D) : StrawberryField D :=
  { directives := fieldDirs
    type := { type_definition := some { directives := typeDirs } } }

/-- Test harness: a field whose return type is not directive-capable
(a scalar return type). -/
def mkScalarField (fieldDirs : List D) : StrawberryField D :=
  { directives := fieldDirs, type := { type_definition := none } }

/-- Test harness: a resolve info whose schema registers exactly one
field, `fname` on type `tname`. -/
def mkInfo (field : StrawberryField D) (fname tname : String) : ResolveInfo D :=
  { schema :=
      { get_field_for_type := fun f t =>
          if f = fname ∧ t = tname then some field else none }
    field_name := fname
    parent_type_name := tname }

/-- A resolve info over a schema with no registered fields at all. -/
def emptyInfo : ResolveInfo (Directive Unit Unit Nat String Unit) :=
  { schema := { get_field_for_type := fun _ _ => none }
    field_name := "user"
    parent_type_name := "Query" }

theorem get_directives_mkInfo (field : StrawberryField D) (fname tname : String) :
    get_directives_for_resolver_info (mkInfo field fname tname) =
      field.directives ++ get_type_directives_from_field field := by
  simp [get_directives_for_resolver_info, mkInfo]

/-- C1: when the directive locator yields no directives, `resolve`
returns exactly what the underlying resolver `next` produces (same
value-or-error and same state): the interceptor is the identity
wrapper around `next`. -/
theorem resolve_no_directives_is_identity
    (info : ResolveInfo (Directive Args σ V E A))
    (h : get_directives_for_resolver_info info = [])
    (next : Args → σ → Except E V × σ) (a : Args) (s : σ) :
    resolve info next a s = next a s := by
  unfold resolve
  rw [h]
  show (match next a s with
    | (Except.error e, s₂) => (Except.error e, s₂)
    | (Except.ok v, s₂) => runEndHooks [] v a s₂) = next a s
  rcases hn : next a s with ⟨r, s₂⟩
  cases r <;> simp [runEndHooks]

/-- C1 witness: on a schema with no registered fields, `resolve` is the
identity around a concrete resolver. -/
theorem resolve_no_directives_is_identity_witness :
    resolve emptyInfo (fun _ s => (Except.ok 5, s)) () () =
      ((Except.ok 5 : Except String Nat), ()) :=
  resolve_no_directives_is_identity emptyInfo rfl (fun _ s => (Except.ok 5, s)) () ()

/-- C2: for a registered field, the locator returns the field's own
directives concatenated with the return type's directives; when the
return type is directive-capable its declared directives are appended
in order, and when it is not (e.g. a scalar) the result is exactly the
field's own directives. -/
theorem locator_concatenates_field_then_type
    (info : ResolveInfo D) (field : StrawberryField D)
    (h : info.schema.get_field_for_type info.field_name info.parent_type_name =
      some field) :
    get_directives_for_resolver_info info =
        field.directives ++ get_type_directives_from_field field ∧
      (∀ td, field.type.type_definition = some td →
        get_directives_for_resolver_info info = field.directives ++ td.directives) ∧
      (field.type.type_definition = none →
        get_directives_for_resolver_info info = field.directives) := by
  have hbase : get_directives_for_resolver_info info =
      field.directives ++ get_type_directives_from_field field := by
    unfold get_directives_for_resolver_info
    rw [h]
  refine ⟨hbase, ?_, ?_⟩
  · intro td htd
    rw [hbase]
    unfold get_type_directives_from_field
    rw [htd]
  · intro htd
    rw [hbase]
    unfold get_type_directives_from_field
    rw [htd]
    simp

/-- C2 witness: a concrete registered field with one field directive and
one type directive. -/
theorem locator_concatenates_field_then_type_witness :
    get_directives_for_resolver_info
        (mkInfo (mkField [0] [1] : StrawberryField Nat) "user" "Query") =
      [0, 1] := by
  have h := locator_concatenates_field_then_type
    (mkInfo (mkField [0] [1] : StrawberryField Nat) "user" "Query")
    (mkField [0] [1]) (by simp [mkInfo])
  have h2 := h.2.1 { directives := [1] } rfl
  simpa [mkField] using h2

/-- C3: for a (parent type, field name) pair with no registered field,
the locator returns the empty sequence (the lookup miss is handled,
not an error). -/
theorem locator_unregistered_field_empty
    (info : ResolveInfo D)
    (h : info.schema.get_field_for_type info.field_name info.parent_type_name =
      none) :
    get_directives_for_resolver_info info = [] := by
  unfold get_directives_for_resolver_info
  rw [h]

/-- C3 witness: the locator on a schema with no registered fields. -/
theorem locator_unregistered_field_empty_witness :
    get_directives_for_resolver_info emptyInfo = [] :=
  locator_unregistered_field_empty emptyInfo rfl

/-- Test harness: a directive whose hooks only record that they ran, by
appending tagged entries to a `List String` event log (the state). -/
def logDirective (tag : String) : Directive Args (List String) V E Unit :=
  { on_resolve_start := some (fun _ s => (Except.ok (), s ++ [tag ++ ".start"]))
    on_resolve_end := some (fun v _ s => (Except.ok v, s ++ [tag ++ ".end"])) }

/-- Test harness: a directive whose start hook logs itself and then
raises `e` (mirrors the always-raising `IsAuthenticated` directive of
the tests, instrumented with the event log). -/
def failStartDirective (e : E) (tag : String) :
    Directive Args (List String) V E Unit :=
  { on_resolve_start := some (fun _ s => (Except.error e, s ++ [tag ++ ".start"]))
    on_resolve_end := some (fun v _ s => (Except.ok v, s ++ [tag ++ ".end"])) }

theorem runStartHooks_append_ok (xs ys : List (Directive Args σ V E A))
    (a : Args) (s s₁ : σ)
    (h : runStartHooks xs a s = (Except.ok (), s₁)) :
    runStartHooks (xs ++ ys) a s = runStartHooks ys a s₁ := by
  induction xs generalizing s with
  | nil =>
    simp only [runStartHooks, Prod.mk.injEq, true_and] at h
    rw [List.nil_append, h]
  | cons d rest ih =>
    rw [List.cons_append]
    rcases hd : d.on_resolve_start with _ | hk
    · simp only [runStartHooks, hd] at h ⊢
      exact ih s h
    · rcases hr : hk a s with ⟨r, s₂⟩
      cases r with
      | error e₂ => simp [runStartHooks, hd, hr] at h
      | ok x =>
        simp only [runStartHooks, hd, hr] at h ⊢
        exact ih s₂ h

theorem runEndHooks_append_ok (xs ys : List (Directive Args σ V E A))
    (v v₁ : V) (a : Args) (s s₁ : σ)
    (h : runEndHooks xs v a s = (Except.ok v₁, s₁)) :
    runEndHooks (xs ++ ys) v a s = runEndHooks ys v₁ a s₁ := by
  induction xs generalizing v s with
  | nil =>
    simp only [runEndHooks, Prod.mk.injEq, Except.ok.injEq] at h
    rw [List.nil_append, h.1, h.2]
  | cons d rest ih =>
    rw [List.cons_append]
    rcases hd : d.on_resolve_end with _ | hk
    · simp only [runEndHooks, hd] at h ⊢
      exact ih v s h
    · rcases hr : hk v a s with ⟨r, s₂⟩
      cases r with
      | error e₂ => simp [runEndHooks, hd, hr] at h
      | ok v₂ =>
        simp only [runEndHooks, hd, hr] at h ⊢
        exact ih v₂ s₂ h

theorem resolve_ok (info : ResolveInfo (Directive Args σ V E A))
    (next : Args → σ → Except E V × σ) (a : Args) (s s₁ s₂ : σ) (v : V)
    (h1 : runStartHooks (get_directives_for_resolver_info info) a s =
      (Except.ok (), s₁))
    (h2 : next a s₁ = (Except.ok v, s₂)) :
    resolve info next a s =
      runEndHooks (get_directives_for_resolver_info info) v a s₂ := by
  unfold resolve
  simp only [h1]
  simp only [h2]

theorem resolve_start_error (info : ResolveInfo (Directive Args σ V E A))
    (next : Args → σ → Except E V × σ) (a : Args) (s s₁ : σ) (e : E)
    (h1 : runStartHooks (get_directives_for_resolver_info info) a s =
      (Except.error e, s₁)) :
    resolve info next a s = (Except.error e, s₁) := by
  unfold resolve
  simp only [h1]

theorem resolve_next_error (info : ResolveInfo (Directive Args σ V E A))
    (next : Args → σ → Except E V × σ) (a : Args) (s s₁ s₂ : σ) (e : E)
    (h1 : runStartHooks (get_directives_for_resolver_info info) a s =
      (Except.ok (), s₁))
    (h2 : next a s₁ = (Except.error e, s₂)) :
    resolve info next a s = (Except.error e, s₂) := by
  unfold resolve
  simp only [h1]
  simp only [h2]

theorem runStartHooks_logDirective_cons (t : String)
    (ds : List (Directive Args (List String) V E Unit)) (a : Args)
    (s : List String) :
    runStartHooks (logDirective t :: ds) a s =
      runStartHooks ds a (s ++ [t ++ ".start"]) := rfl

theorem runEndHooks_logDirective_cons (t : String)
    (ds : List (Directive Args (List String) V E Unit)) (v : V) (a : Args)
    (s : List String) :
    runEndHooks (logDirective t :: ds) v a s =
      runEndHooks ds v a (s ++ [t ++ ".end"]) := rfl

theorem runStartHooks_logDirectives (tags : List String) (a : Args) (s : List String) :
    runStartHooks (tags.map (logDirective : String → Directive Args (List String) V E Unit)) a s =
      (Except.ok (), s ++ tags.map (fun t => t ++ ".start")) := by
  induction tags generalizing s with
  | nil => simp [runStartHooks]
  | cons t rest ih =>
    simp only [List.map_cons]
    rw [runStartHooks_logDirective_cons]
    rw [ih (s ++ [t ++ ".start"])]
    simp

theorem runEndHooks_logDirectives (tags : List String) (v : V) (a : Args)
    (s : List String) :
    runEndHooks (tags.map (logDirective : String → Directive Args (List String) V E Unit)) v a s =
      (Except.ok v, s ++ tags.map (fun t => t ++ ".end")) := by
  induction tags generalizing s with
  | nil => simp [runEndHooks]
  | cons t rest ih =>
    simp only [List.map_cons]
    rw [runEndHooks_logDirective_cons]
    rw [ih (s ++ [t ++ ".end"])]
    simp

theorem get_directives_mkField (fieldDirs typeDirs : List D) (fname tname : String) :
    get_directives_for_resolver_info
        (mkInfo (mkField fieldDirs typeDirs) fname tname) =
      fieldDirs ++ typeDirs := by
  rw [get_directives_mkInfo]
  simp [mkField, get_type_directives_from_field]

/-- C4: execution order is deterministic; with every directive's hooks
instrumented to log, a field carrying `ftags` directives whose return
type carries `ttags` directives produces exactly the event log
field-level starts, then type-level starts, then the resolver, then
field-level ends, then type-level ends — so every field-level start
hook runs strictly before every type-level start hook, and likewise
for end hooks. -/
theorem hook_order_field_before_type (ftags ttags : List String)
    (fname tname : String) (a : Args) (v : V) (s : List String) :
    resolve (E := E)
        (mkInfo (mkField (ftags.map logDirective) (ttags.map logDirective))
          fname tname)
        (fun _ s₁ => (Except.ok v, s₁ ++ ["next"])) a s =
      (Except.ok v,
        s ++ ftags.map (fun t => t ++ ".start")
          ++ ttags.map (fun t => t ++ ".start")
          ++ ["next"]
          ++ ftags.map (fun t => t ++ ".end")
          ++ ttags.map (fun t => t ++ ".end")) := by
  have hds := get_directives_mkField
    (ftags.map (logDirective : String → Directive Args (List String) V E Unit))
    (ttags.map logDirective) fname tname
  have h1 : runStartHooks
      (ftags.map (logDirective : String → Directive Args (List String) V E Unit) ++
        ttags.map logDirective) a s =
      (Except.ok (), s ++ ftags.map (fun t => t ++ ".start")
        ++ ttags.map (fun t => t ++ ".start")) := by
    rw [runStartHooks_append_ok _ _ a s _ (runStartHooks_logDirectives ftags a s)]
    exact runStartHooks_logDirectives ttags a _
  rw [resolve_ok _ _ a s _ _ v (by rw [hds]; exact h1) rfl]
  rw [hds]
  rw [runEndHooks_append_ok _ _ v v a _ _ (runEndHooks_logDirectives ftags v a _)]
  rw [runEndHooks_logDirectives]

/-- C5: a raising start hook aborts everything after it — later start
hooks never run, `next` is never called (the result is the same for
every `next`), no end hook runs (the log has no end entries), and the
raised error propagates unmodified. -/
theorem start_hook_error_aborts (ftags gtags ttags : List String) (e : E)
    (tag fname tname : String) (a : Args)
    (next : Args → List String → Except E V × List String) (s : List String) :
    resolve
        (mkInfo
          (mkField
            (ftags.map logDirective ++ failStartDirective e tag ::
              gtags.map logDirective)
            (ttags.map logDirective))
          fname tname)
        next a s =
      (Except.error e,
        s ++ ftags.map (fun t => t ++ ".start") ++ [tag ++ ".start"]) := by
  have hds := get_directives_mkField
    (ftags.map (logDirective : String → Directive Args (List String) V E Unit) ++
      failStartDirective e tag :: gtags.map logDirective)
    (ttags.map logDirective) fname tname
  have h1 : runStartHooks
      ((ftags.map (logDirective : String → Directive Args (List String) V E Unit) ++
        failStartDirective e tag :: gtags.map logDirective) ++
        ttags.map logDirective) a s =
      (Except.error e,
        s ++ ftags.map (fun t => t ++ ".start") ++ [tag ++ ".start"]) := by
    rw [List.append_assoc, List.cons_append]
    rw [runStartHooks_append_ok _ _ a s _ (runStartHooks_logDirectives ftags a s)]
    simp [runStartHooks, failStartDirective]
  exact resolve_start_error _ next a s _ e (by rw [hds]; exact h1)

/-- C8: when the underlying resolver raises, the error propagates
unchanged and no end hook runs (the log shows all start hooks and the
resolver, and no end entries). -/
theorem next_error_skips_end_hooks (ftags ttags : List String) (e : E)
    (fname tname : String) (a : Args) (s : List String) :
    resolve (V := V)
        (mkInfo (mkField (ftags.map logDirective) (ttags.map logDirective))
          fname tname)
        (fun _ s₁ => (Except.error e, s₁ ++ ["next"])) a s =
      (Except.error e,
        s ++ ftags.map (fun t => t ++ ".start")
          ++ ttags.map (fun t => t ++ ".start") ++ ["next"]) := by
  have hds := get_directives_mkField
    (ftags.map (logDirective : String → Directive Args (List String) V E Unit))
    (ttags.map logDirective) fname tname
  have h1 : runStartHooks
      (ftags.map (logDirective : String → Directive Args (List String) V E Unit) ++
        ttags.map logDirective) a s =
      (Except.ok (), s ++ ftags.map (fun t => t ++ ".start")
        ++ ttags.map (fun t => t ++ ".start")) := by
    rw [runStartHooks_append_ok _ _ a s _ (runStartHooks_logDirectives ftags a s)]
    exact runStartHooks_logDirectives ttags a _
  exact resolve_next_error _ _ a s _ _ e (by rw [hds]; exact h1) rfl

/-- Test harness: a directive with no start hook and, when `f` is
given, a pure end hook applying `f` to the value (state untouched,
nothing raised); when `f` is `none`, no end hook at all. -/
def mkEndDirective : Option (V → V) → Directive Args σ V E A
  | none => { on_resolve_start := none, on_resolve_end := none }
  | some f =>
    { on_resolve_start := none
      on_resolve_end := some (fun v _ s => (Except.ok (f v), s)) }

/-- Test harness: a directive with no start hook whose end hook raises
`e` without touching the state. -/
def failEndDirective (e : E) : Directive Args σ V E A :=
  { on_resolve_start := none
    on_resolve_end := some (fun _ _ s => (Except.error e, s)) }

theorem runStartHooks_mkEndDirectives (ofs : List (Option (V → V))) (a : Args)
    (s : σ) :
    runStartHooks (ofs.map (mkEndDirective : Option (V → V) → Directive Args σ V E A)) a s =
      (Except.ok (), s) := by
  induction ofs with
  | nil => simp [runStartHooks]
  | cons o rest ih =>
    cases o <;> simp only [List.map_cons] <;>
      simp only [runStartHooks, mkEndDirective] <;> exact ih

theorem runEndHooks_mkEndDirectives (ofs : List (Option (V → V))) (v : V)
    (a : Args) (s : σ) :
    runEndHooks (ofs.map (mkEndDirective : Option (V → V) → Directive Args σ V E A)) v a s =
      (Except.ok ((ofs.filterMap id).foldl (fun x f => f x) v), s) := by
  induction ofs generalizing v with
  | nil => simp [runEndHooks]
  | cons o rest ih =>
    cases o with
    | none =>
      simp only [List.map_cons]
      simp only [runEndHooks, mkEndDirective]
      rw [ih v]
      simp
    | some f =>
      simp only [List.map_cons]
      simp only [runEndHooks, mkEndDirective]
      rw [ih (f v)]
      simp

/-- C6: when every hook and the resolver succeed, the value returned is
the left fold of the end hooks over the resolver's value — exactly the
directives exposing an end hook, in directive order (field directives
first, then type directives); directives without an end hook are
skipped. -/
theorem end_hooks_fold_value (ofs ots : List (Option (V → V)))
    (fname tname : String) (a : Args) (v : V) (s : σ) :
    resolve (E := E) (A := Unit)
        (mkInfo (mkField (ofs.map mkEndDirective) (ots.map mkEndDirective))
          fname tname)
        (fun _ s₁ => (Except.ok v, s₁)) a s =
      (Except.ok (((ofs ++ ots).filterMap id).foldl (fun x f => f x) v), s) := by
  have hds := get_directives_mkField
    (ofs.map (mkEndDirective : Option (V → V) → Directive Args σ V E Unit))
    (ots.map mkEndDirective) fname tname
  have h1 : runStartHooks
      (ofs.map (mkEndDirective : Option (V → V) → Directive Args σ V E Unit) ++
        ots.map mkEndDirective) a s = (Except.ok (), s) := by
    rw [runStartHooks_append_ok _ _ a s _ (runStartHooks_mkEndDirectives ofs a s)]
    exact runStartHooks_mkEndDirectives ots a s
  rw [resolve_ok _ _ a s _ _ v (by rw [hds]; exact h1) rfl]
  rw [hds]
  rw [runEndHooks_append_ok _ _ v _ a _ _ (runEndHooks_mkEndDirectives ofs v a s)]
  rw [runEndHooks_mkEndDirectives]
  simp [List.filterMap_append, List.foldl_append]

/-- C7: when an end hook raises, the error propagates unchanged and the
transformations already applied by the earlier end hooks are
discarded — the result carries the error `e` and no value at all, for
any transformations `ofs` before the failing hook and any directives
after it. -/
theorem end_hook_error_discards_partial_value (ofs gofs : List (Option (V → V)))
    (e : E) (fname tname : String) (a : Args) (v : V) (s : σ) :
    resolve (A := Unit)
        (mkInfo
          (mkScalarField
            (ofs.map mkEndDirective ++ failEndDirective e ::
              gofs.map mkEndDirective))
          fname tname)
        (fun _ s₁ => (Except.ok v, s₁)) a s =
      (Except.error e, s) := by
  have hds : get_directives_for_resolver_info
      (mkInfo
        (mkScalarField
          (ofs.map mkEndDirective ++ failEndDirective e ::
            gofs.map mkEndDirective))
        fname tname) =
      (ofs.map (mkEndDirective : Option (V → V) → Directive Args σ V E Unit) ++
        failEndDirective e :: gofs.map mkEndDirective) := by
    rw [get_directives_mkInfo]
    simp [mkScalarField, get_type_directives_from_field]
  have h1 : runStartHooks
      (ofs.map (mkEndDirective : Option (V → V) → Directive Args σ V E Unit) ++
        failEndDirective e :: gofs.map mkEndDirective) a s =
      (Except.ok (), s) := by
    rw [runStartHooks_append_ok _ _ a s _ (runStartHooks_mkEndDirectives ofs a s)]
    show runStartHooks (gofs.map mkEndDirective) a s = (Except.ok (), s)
    exact runStartHooks_mkEndDirectives gofs a s
  rw [resolve_ok _ _ a s _ _ v (by rw [hds]; exact h1) rfl]
  rw [hds]
  rw [runEndHooks_append_ok _ _ v _ a _ _ (runEndHooks_mkEndDirectives ofs v a s)]
  simp only [runEndHooks, failEndDirective]

/-- A Python `datetime` value, kept abstract: only its identity matters
to the directive, which hands it to externally-provided `strftime` /
`isoformat` functions. -/
structure PyDatetime where
  stamp : Nat
deriving DecidableEq

/-- The dynamically-typed resolved value of a field: either a datetime
instance, a string, or an integer (enough to cover the tests). -/
inductive PyValue where
  | datetime (d : PyDatetime)
  | string (str : String)
  | int (n : Int)
deriving DecidableEq

/-- Translation of the `Date.on_resolve_end` hook of the test file: a
non-datetime value passes through unchanged; a datetime is formatted
with `strftime` when a (truthy, i.e. nonempty) pattern is configured,
and with `isoformat` otherwise. The stdlib `strftime` and `isoformat`
methods are external collaborators, taken as parameters. -/
def date_on_resolve_end (strftime : PyDatetime → String → String)
    (isoformat : PyDatetime → String) (format : String) (value : PyValue) :
    PyValue :=
  match value with
  | PyValue.datetime d =>
    if format ≠ "" then PyValue.string (strftime d format)
    else PyValue.string (isoformat d)
  | v => v

/-- The `Date` schema directive of the test file: no start hook, and an
end hook applying `date_on_resolve_end` (pure: no state change, no
exception). -/
def dateDirective (strftime : PyDatetime → String → String)
    (isoformat : PyDatetime → String) (format : String) :
    Directive Args σ PyValue E A :=
  { on_resolve_start := none
    on_resolve_end := some (fun v _ s =>
      (Except.ok (date_on_resolve_end strftime isoformat format v), s)) }

/-- C9: through the interceptor, a field carrying the `Date` formatting
directive returns `date_on_resolve_end` of the resolved value; that
transformation formats a datetime per the configured pattern when one
is configured, formats it as ISO-8601 otherwise, and passes every
non-datetime value (string, int) through unchanged. -/
theorem date_directive_formats_value
    (strftime : PyDatetime → String → String) (isoformat : PyDatetime → String)
    (format : String) (v : PyValue) (fname tname : String) (a : Args) (s : σ) :
    resolve (E := E) (A := Unit)
        (mkInfo (mkScalarField [dateDirective strftime isoformat format])
          fname tname)
        (fun _ s₁ => (Except.ok v, s₁)) a s =
      (Except.ok (date_on_resolve_end strftime isoformat format v), s) ∧
      (∀ d, date_on_resolve_end strftime isoformat format (PyValue.datetime d) =
        if format ≠ "" then PyValue.string (strftime d format)
        else PyValue.string (isoformat d)) ∧
      (∀ str, date_on_resolve_end strftime isoformat format
        (PyValue.string str) = PyValue.string str) ∧
      (∀ n, date_on_resolve_end strftime isoformat format (PyValue.int n) =
        PyValue.int n) := by
  refine ⟨?_, fun d => rfl, fun str => rfl, fun n => rfl⟩
  have hds : get_directives_for_resolver_info
      (mkInfo
        (mkScalarField
          [(dateDirective strftime isoformat format : Directive Args σ PyValue E Unit)])
        fname tname) =
      [(dateDirective strftime isoformat format : Directive Args σ PyValue E Unit)] := by
    rw [get_directives_mkInfo]
    simp [mkScalarField, get_type_directives_from_field]
  have h1 : runStartHooks
      [(dateDirective strftime isoformat format : Directive Args σ PyValue E Unit)]
      a s = (Except.ok (), s) := rfl
  rw [resolve_ok _ _ a s _ _ v (by rw [hds]; exact h1) rfl]
  rw [hds]
  simp only [runEndHooks, dateDirective]

/-- Two directives agree up to the return value of their start hooks:
their end hooks are identical, and their start hooks are either both
absent or both present, raising nothing, producing the same successor
state on every input and differing only in the returned (discarded)
payload. -/
def StartReturnAgree (d d' : Directive Args σ V E A) : Prop :=
  d.on_resolve_end = d'.on_resolve_end ∧
  ((d.on_resolve_start = none ∧ d'.on_resolve_start = none) ∨
    (∃ h h', d.on_resolve_start = some h ∧ d'.on_resolve_start = some h' ∧
      ∀ a s, ∃ x x' s₁, h a s = (Except.ok x, s₁) ∧ h' a s = (Except.ok x', s₁)))

theorem runStartHooks_startReturnAgree (ds ds' : List (Directive Args σ V E A))
    (hrel : List.Forall₂ StartReturnAgree ds ds') (a : Args) (s : σ) :
    runStartHooks ds a s = runStartHooks ds' a s := by
  induction hrel generalizing s with
  | nil => rfl
  | cons hdd htl ih =>
    rcases hdd with ⟨-, hstart⟩
    rcases hstart with ⟨hn, hn'⟩ | ⟨hk, hk', hd, hd', hok⟩
    · simp only [runStartHooks, hn, hn']
      exact ih s
    · rcases hok a s with ⟨x, x', s₁, hx, hx'⟩
      simp only [runStartHooks, hd, hd', hx, hx']
      exact ih s₁

theorem runStartHooks_append_error (xs ys : List (Directive Args σ V E A))
    (a : Args) (s s₁ : σ) (e : E)
    (h : runStartHooks xs a s = (Except.error e, s₁)) :
    runStartHooks (xs ++ ys) a s = (Except.error e, s₁) := by
  induction xs generalizing s with
  | nil => simp [runStartHooks] at h
  | cons d rest ih =>
    rw [List.cons_append]
    rcases hd : d.on_resolve_start with _ | hk
    · simp only [runStartHooks, hd] at h ⊢
      exact ih s h
    · rcases hr : hk a s with ⟨r, s₂⟩
      cases r with
      | error e₂ =>
        simp only [runStartHooks, hd, hr, Prod.mk.injEq, Except.error.injEq] at h ⊢
        exact h
      | ok x =>
        simp only [runStartHooks, hd, hr] at h ⊢
        exact ih s₂ h

theorem runEndHooks_append_error (xs ys : List (Directive Args σ V E A))
    (v : V) (a : Args) (s s₁ : σ) (e : E)
    (h : runEndHooks xs v a s = (Except.error e, s₁)) :
    runEndHooks (xs ++ ys) v a s = (Except.error e, s₁) := by
  induction xs generalizing v s with
  | nil => simp [runEndHooks] at h
  | cons d rest ih =>
    rw [List.cons_append]
    rcases hd : d.on_resolve_end with _ | hk
    · simp only [runEndHooks, hd] at h ⊢
      exact ih v s h
    · rcases hr : hk v a s with ⟨r, s₂⟩
      cases r with
      | error e₂ =>
        simp only [runEndHooks, hd, hr, Prod.mk.injEq, Except.error.injEq] at h ⊢
        exact h
      | ok v₂ =>
        simp only [runEndHooks, hd, hr] at h ⊢
        exact ih v₂ s₂ h

theorem runEndHooks_same_end_hooks (ds ds' : List (Directive Args σ V E A))
    (hrel : List.Forall₂
      (fun d d' => d.on_resolve_end = d'.on_resolve_end) ds ds')
    (v : V) (a : Args) (s : σ) :
    runEndHooks ds v a s = runEndHooks ds' v a s := by
  induction hrel generalizing v s with
  | nil => rfl
  | @cons d d' rest rest' hdd htl ih =>
    simp only [runEndHooks, hdd]
    rcases hk : d'.on_resolve_end with _ | hfn
    · simp only []
      exact ih v s
    · rcases hr : hfn v a s with ⟨r, s₁⟩
      simp only [hr]
      cases r with
      | error e => rfl
      | ok v₁ => exact ih v₁ s₁

/-- C10: the interceptor's result never depends on what start hooks
return — for two directive lists whose members pairwise agree up to
the (non-raising) start hooks' returned payloads, `resolve` produces
the identical result for every resolver, type-level directives,
arguments and state; only end hooks can transform the value. -/
theorem start_hook_return_value_irrelevant
    (ds ds' tds : List (Directive Args σ V E A))
    (hrel : List.Forall₂ StartReturnAgree ds ds')
    (fname tname : String) (next : Args → σ → Except E V × σ)
    (a : Args) (s : σ) :
    resolve (mkInfo (mkField ds tds) fname tname) next a s =
      resolve (mkInfo (mkField ds' tds) fname tname) next a s := by
  have hstart : runStartHooks (ds ++ tds) a s = runStartHooks (ds' ++ tds) a s := by
    have h0 := runStartHooks_startReturnAgree ds ds' hrel a s
    rcases hs : runStartHooks ds' a s with ⟨r, s₁⟩
    rw [hs] at h0
    cases r with
    | error e =>
      rw [runStartHooks_append_error _ _ a s _ e h0,
        runStartHooks_append_error _ _ a s _ e hs]
    | ok u =>
      cases u
      rw [runStartHooks_append_ok _ _ a s _ h0,
        runStartHooks_append_ok _ _ a s _ hs]
  have hendAll : ∀ v s₂, runEndHooks (ds ++ tds) v a s₂ =
      runEndHooks (ds' ++ tds) v a s₂ := by
    intro v s₂
    have hend : runEndHooks ds v a s₂ = runEndHooks ds' v a s₂ :=
      runEndHooks_same_end_hooks ds ds' (hrel.imp fun _ _ hp => hp.1) v a s₂
    rcases he : runEndHooks ds' v a s₂ with ⟨re, s₃⟩
    rw [he] at hend
    cases re with
    | error e =>
      rw [runEndHooks_append_error _ _ v a s₂ _ e hend,
        runEndHooks_append_error _ _ v a s₂ _ e he]
    | ok v₁ =>
      rw [runEndHooks_append_ok _ _ v v₁ a s₂ _ hend,
        runEndHooks_append_ok _ _ v v₁ a s₂ _ he]
  rcases hs' : runStartHooks (ds' ++ tds) a s with ⟨r, s₁⟩
  have hs : runStartHooks (ds ++ tds) a s = (r, s₁) := hstart.trans hs'
  cases r with
  | error e =>
    rw [resolve_start_error _ next a s s₁ e
      (by rw [get_directives_mkField]; exact hs)]
    rw [resolve_start_error _ next a s s₁ e
      (by rw [get_directives_mkField]; exact hs')]
  | ok u =>
    cases u
    rcases hn : next a s₁ with ⟨rv, s₂⟩
    cases rv with
    | error e =>
      rw [resolve_next_error _ next a s s₁ s₂ e
        (by rw [get_directives_mkField]; exact hs) hn]
      rw [resolve_next_error _ next a s s₁ s₂ e
        (by rw [get_directives_mkField]; exact hs') hn]
    | ok v =>
      rw [resolve_ok _ next a s s₁ s₂ v
        (by rw [get_directives_mkField]; exact hs) hn]
      rw [resolve_ok _ next a s s₁ s₂ v
        (by rw [get_directives_mkField]; exact hs') hn]
      rw [get_directives_mkField, get_directives_mkField]
      exact hendAll v s₂

/-- C10 witness: two concrete one-directive schemas whose start hooks
return 1 and 2 respectively give identical resolution results. -/
theorem start_hook_return_value_irrelevant_witness :
    resolve
        (mkInfo
          (mkField
            [({ on_resolve_start := some (fun _ s => (Except.ok 1, s))
                on_resolve_end := none } : Directive Unit Unit Nat String Nat)]
            [])
          "user" "Query")
        (fun _ s => (Except.ok 7, s)) () () =
      resolve
        (mkInfo
          (mkField
            [({ on_resolve_start := some (fun _ s => (Except.ok 2, s))
                on_resolve_end := none } : Directive Unit Unit Nat String Nat)]
            [])
          "user" "Query")
        (fun _ s => (Except.ok 7, s)) () () := by
  apply start_hook_return_value_irrelevant
  refine List.Forall₂.cons ?_ List.Forall₂.nil
  unfold StartReturnAgree
  exact ⟨rfl, Or.inr ⟨fun _ s => (Except.ok 1, s), fun _ s => (Except.ok 2, s),
    rfl, rfl, fun a s => ⟨1, 2, s, rfl, rfl⟩⟩⟩

end SchemaDirectives
